import Mathlib

/-!
Verification of the cell-level data model and minimal-diff SGR escape encoder
of a terminal emulator (`alacritty_terminal/src/term/cell.rs`).

The embedding is shallow and executable:
* `Flags` values are natural numbers used as a 16-bit set (bitflags);
* `Color` is the external color entity, modelled from the spec as an
  inductive with named / indexed / direct-RGB variants;
* `Cell` mirrors the Rust struct field by field, `extra` being the lazily
  allocated `Option<Box<CellExtra>>` side storage;
* the mutating Rust methods become pure functions returning the new value,
  and `Cell.as_escape`, which appends to a `String` buffer, becomes a pure
  function from the old buffer (a `List Char`) to the new buffer.  The
  external capability `Color::as_escape` is passed in as a function
  argument returning the characters it would append.
-/

namespace Alacritty

/-- The `Flags` bitset is a `u16`; a value is the underlying natural number.
All operations are exact bitwise arithmetic, so no wrap-around is involved. -/
abbrev Flags := Nat

namespace Flags

def INVERSE : Flags := 0b0000000000000001
def BOLD : Flags := 0b0000000000000010
def ITALIC : Flags := 0b0000000000000100
def BOLD_ITALIC : Flags := 0b0000000000000110
def UNDERLINE : Flags := 0b0000000000001000
def WRAPLINE : Flags := 0b0000000000010000
def WIDE_CHAR : Flags := 0b0000000000100000
def WIDE_CHAR_SPACER : Flags := 0b0000000001000000
def DIM : Flags := 0b0000000010000000
def DIM_BOLD : Flags := 0b0000000010000010
def HIDDEN : Flags := 0b0000000100000000
def STRIKEOUT : Flags := 0b0000001000000000
def LEADING_WIDE_CHAR_SPACER : Flags := 0b0000010000000000
def DOUBLE_UNDERLINE : Flags := 0b0000100000000000

/-- `bitflags` `Flags::empty()`. -/
def emptySet : Flags := 0

/-- `bitflags` `contains`: all bits of `f` are present in `s`. -/
def contains (s f : Flags) : Bool := s &&& f == f

/-- `bitflags` `intersects`: `s` and `f` share at least one bit. -/
def intersects (s f : Flags) : Bool := s &&& f != 0

end Flags

/-- Modelled from the spec: the external color entity's named palette colors.
Only `Foreground` and `Background` are distinguished by this core; a couple of
representative palette entries are included so the type is not degenerate. -/
inductive NamedColor where
  | Foreground
  | Background
  | Green
  | Red
deriving DecidableEq

/-- Modelled from the spec: a direct RGB color specification. -/
structure Rgb where
  r : Nat
  g : Nat
  b : Nat
deriving DecidableEq

/-- Modelled from the spec: the external `Color` entity, with a named palette
variant, an indexed palette variant and a direct RGB variant.  This core only
compares colors for equality. -/
inductive Color where
  | Named (name : NamedColor)
  | Indexed (idx : Nat)
  | Spec (rgb : Rgb)
deriving DecidableEq

/-- `CellExtra`: dynamically allocated cell content (the rare attributes). -/
structure CellExtra where
  zerowidth : List Char
deriving DecidableEq

/-- `Cell`: content and attributes of a single cell in the terminal grid. -/
structure Cell where
  c : Char
  fg : Color
  bg : Color
  flags : Flags
  extra : Option CellExtra
deriving DecidableEq

/-- `Cell::default()`: a space on default colors with no flags and no extra
storage. -/
def Cell.default : Cell :=
  { c := ' '
    bg := Color.Named NamedColor.Background
    fg := Color.Named NamedColor.Foreground
    flags := Flags.emptySet
    extra := none }

/-- `Cell::zerowidth`: the zero-width characters stored in this cell, when
extra storage exists. -/
def Cell.zerowidth (cell : Cell) : Option (List Char) :=
  cell.extra.map (fun extra => extra.zerowidth)

/-- The spec reads `zerowidth()` as a possibly-empty sequence view: absent
extra storage is the empty sequence. -/
def Cell.zerowidthView (cell : Cell) : List Char :=
  (cell.zerowidth).getD []

/-- `Cell::push_zerowidth`: append a zero-width character, allocating the
extra storage on first use (`get_or_insert_with(Default::default)`). -/
def Cell.push_zerowidth (cell : Cell) (ch : Char) : Cell :=
  { cell with
    extra := some { zerowidth := (cell.extra.getD { zerowidth := [] }).zerowidth ++ [ch] } }

/-- `Cell::drop_extra`: free the dynamically allocated cell storage if any. -/
def Cell.drop_extra (cell : Cell) : Cell :=
  if cell.extra.isSome then { cell with extra := none } else cell

/-- `GridCell::is_empty` for `Cell`. -/
def Cell.is_empty (cell : Cell) : Bool :=
  (cell.c == ' ' || cell.c == '\t')
    && cell.bg == Color.Named NamedColor.Background
    && cell.fg == Color.Named NamedColor.Foreground
    && !(Flags.intersects cell.flags
          (Flags.INVERSE ||| Flags.UNDERLINE ||| Flags.DOUBLE_UNDERLINE
            ||| Flags.STRIKEOUT ||| Flags.WRAPLINE ||| Flags.WIDE_CHAR_SPACER
            ||| Flags.LEADING_WIDE_CHAR_SPACER))
    && (cell.extra.map (fun extra => extra.zerowidth.isEmpty) != some false)

/-- `GridCell::reset` for `Cell`: `*self = Cell { bg: template.bg, ..Cell::default() }`.
The old value of the cell is ignored entirely. -/
def Cell.reset (_self template : Cell) : Cell :=
  { Cell.default with bg := template.bg }

/-- `From<Color> for Cell`: `Self { bg: color, ..Cell::default() }`. -/
def Cell.fromColor (color : Color) : Cell :=
  { Cell.default with bg := color }

/-- The blanket `impl<T: Copy> ResetDiscriminant<T> for T`: identity. -/
def discriminantCopy {T : Type} (v : T) : T := v

/-- `impl ResetDiscriminant<Color> for Cell`: the cell's background. -/
def Cell.discriminant (cell : Cell) : Color := cell.bg

/-- Index (from the front) of the first cell on which `is_empty` fails; the
body of `line_length`'s reverse scan. -/
def firstNonEmpty : List Cell → Option Nat
  | [] => none
  | cell :: rest =>
    if cell.is_empty then (firstNonEmpty rest).map (· + 1) else some 0

/-- `LineLength for Row<Cell>`: the occupied line length.  A `Row` is
consumed only through indexing and length, so it is a `List Cell`; the Rust
code requires a non-empty row (it indexes `len() - 1`).  The `for … .rev()`
loop leaves `length = 0` when every cell is empty and otherwise stops at the
first non-empty cell at reverse-index `index`, setting `length = len - index`. -/
def line_length (row : List Cell) : Nat :=
  if Flags.contains (row.getLastD Cell.default).flags Flags.WRAPLINE then
    row.length
  else
    match firstNonEmpty row.reverse with
    | some index => row.length - index
    | none => 0

/-- The external capability `Color::as_escape(&self, buf, last, is_fg)`,
functionally: the characters it appends to `buf` for the transition from
`last` to the target color, with the foreground marker. -/
abbrev ColorEscape := Color → Color → Bool → List Char

/-- The two-byte CSI introducer `"\x1b["`. -/
def csiIntroducer : List Char := ['\x1b', '[']

/-- The `csi!` finalizer macro: if nothing was appended after the introducer
(`buf.len() == empty_len`), truncate the introducer away; otherwise overwrite
the final byte (a trailing semicolon) with the SGR terminator `'m'`. -/
def csiFinalize (empty_len : Nat) (buf : List Char) : List Char :=
  if buf.length = empty_len then buf.take (empty_len - 2)
  else buf.dropLast ++ ['m']

/-- The bold/dim block of `as_escape`: the characters appended for the
BOLD/DIM transition from `lastF` to `selfF`. -/
def boldDimStr (selfF lastF : Flags) : List Char :=
  if Flags.intersects (selfF ^^^ lastF) (Flags.BOLD ||| Flags.DIM) then
    if !(Flags.intersects selfF (Flags.BOLD ||| Flags.DIM)) then "22;".toList
    else if Flags.contains selfF Flags.BOLD then "1;".toList
    else "2;".toList
  else []

/-- The `append_if_flags_differ!` macro body: for a single-bit `flag` with
set-code `num`, the characters appended (`concat!(num, ";")` when the flag is
set in `selfF`, `concat!("2", num, ";")` when it is not). -/
def appendIfFlagsDiffer (selfF diff flag : Flags) (num : Nat) : List Char :=
  if Flags.contains diff flag then
    if Flags.contains selfF flag then (Nat.repr num ++ ";").toList
    else ("2" ++ Nat.repr num ++ ";").toList
  else []

/-- Everything the flags section of `as_escape` appends when
`self.flags != last.flags`: the bold/dim block followed by the five
`append_if_flags_differ!` invocations in source order. -/
def flagsStr (selfF lastF : Flags) : List Char :=
  boldDimStr selfF lastF
    ++ appendIfFlagsDiffer selfF (selfF ^^^ lastF) Flags.ITALIC 3
    ++ appendIfFlagsDiffer selfF (selfF ^^^ lastF) Flags.UNDERLINE 4
    ++ appendIfFlagsDiffer selfF (selfF ^^^ lastF) Flags.INVERSE 7
    ++ appendIfFlagsDiffer selfF (selfF ^^^ lastF) Flags.HIDDEN 8
    ++ appendIfFlagsDiffer selfF (selfF ^^^ lastF) Flags.STRIKEOUT 9

/-- `Cell::as_escape(&self, buf, last)`: push the CSI introducer
speculatively, let the external color capability append its codes for
foreground and background, then append attribute codes if the flags changed,
and finalize with `csi!`. -/
def Cell.as_escape (colorEsc : ColorEscape) (self last : Cell)
    (buf : List Char) : List Char :=
  let buf1 := buf ++ csiIntroducer
  let empty_len := buf1.length
  let buf2 := buf1 ++ colorEsc self.fg last.fg true ++ colorEsc self.bg last.bg false
  if self.flags = last.flags then csiFinalize empty_len buf2
  else csiFinalize empty_len (buf2 ++ flagsStr self.flags last.flags)

/-!  Token-level view of the flags section: the numeric SGR parameters it
contributes, in order.  `flagsStr_eq_params` below proves the character-level
section equal to the rendering of this parameter list. -/

/-- One numeric SGR parameter rendered with its trailing semicolon. -/
def codeChars (n : Nat) : List Char := (Nat.repr n).toList ++ [';']

/-- A run of trailing-semicolon-terminated numeric parameters. -/
def paramsChars (ps : List Nat) : List Char := (ps.map codeChars).flatten

/-- Numeric parameters of the bold/dim block. -/
def boldDimCodes (selfF lastF : Flags) : List Nat :=
  if Flags.intersects (selfF ^^^ lastF) (Flags.BOLD ||| Flags.DIM) then
    if !(Flags.intersects selfF (Flags.BOLD ||| Flags.DIM)) then [22]
    else if Flags.contains selfF Flags.BOLD then [1]
    else [2]
  else []

/-- Numeric parameters of one `append_if_flags_differ!` invocation: the set
code `num`, or the unset code `20 + num` (decimal `"2"` prefix). -/
def styleCode (selfF diff flag : Flags) (num : Nat) : List Nat :=
  if Flags.contains diff flag then
    if Flags.contains selfF flag then [num] else [20 + num]
  else []

/-- Numeric parameters of the whole flags section, in emission order. -/
def flagsCodes (selfF lastF : Flags) : List Nat :=
  boldDimCodes selfF lastF
    ++ styleCode selfF (selfF ^^^ lastF) Flags.ITALIC 3
    ++ styleCode selfF (selfF ^^^ lastF) Flags.UNDERLINE 4
    ++ styleCode selfF (selfF ^^^ lastF) Flags.INVERSE 7
    ++ styleCode selfF (selfF ^^^ lastF) Flags.HIDDEN 8
    ++ styleCode selfF (selfF ^^^ lastF) Flags.STRIKEOUT 9

/-- Semicolon-separated body of an SGR sequence (no trailing semicolon). -/
def sgrBody : List Nat → List Char
  | [] => []
  | [n] => (Nat.repr n).toList
  | n :: rest => (Nat.repr n).toList ++ [';'] ++ sgrBody rest

/-- A complete well-formed SGR sequence `ESC [ p(;p)* m`. -/
def sgrSequence (ps : List Nat) : List Char :=
  csiIntroducer ++ sgrBody ps ++ ['m']

/-- Modelled from the spec's words for the independent-flag codes: one
parameter for each of italic, underline, inverse, hidden, strikeout whose bit
differs, in that fixed order, the set code when `selfF` has the flag and the
unset code (`20 +` set code) when it does not.  Refinement companion of the
`styleCode` part of `flagsCodes`. -/
def styleSpecCodes (selfF lastF : Flags) : List Nat :=
  (([(Flags.ITALIC, 3), (Flags.UNDERLINE, 4), (Flags.INVERSE, 7),
      (Flags.HIDDEN, 8), (Flags.STRIKEOUT, 9)].filter
      (fun p => Flags.contains (selfF ^^^ lastF) p.1)).map
    (fun p => if Flags.contains selfF p.1 then p.2 else 20 + p.2))

/-- Push a whole sequence of zero-width characters, left to right. -/
def pushZerowidthAll (cell : Cell) (cs : List Char) : Cell :=
  cs.foldl Cell.push_zerowidth cell

/-! ## Helper lemmas -/

theorem lor_eq_zero_iff {a b : Nat} : a ||| b = 0 ↔ a = 0 ∧ b = 0 := by
  constructor
  · intro h
    constructor <;> (apply Nat.eq_of_testBit_eq; intro i) <;>
      (have hb := congrArg (fun n => Nat.testBit n i) h
       simp [Nat.testBit_lor] at hb) <;> simp [hb.1, hb.2]
  · rintro ⟨rfl, rfl⟩; rfl

theorem land_lor_distrib_left (x a b : Nat) :
    x &&& (a ||| b) = (x &&& a) ||| (x &&& b) := by
  refine Nat.eq_of_testBit_eq fun i => ?_
  simp [Nat.testBit_land, Nat.testBit_lor]
  cases Nat.testBit x i <;> cases Nat.testBit a i <;> cases Nat.testBit b i <;> rfl

theorem lor_land_preserving {x k m : Nat} (h : k &&& m = 0) :
    (x ||| k) &&& m = x &&& m := by
  refine Nat.eq_of_testBit_eq fun i => ?_
  have hk := congrArg (fun n => Nat.testBit n i) h
  simp [Nat.testBit_land, Nat.testBit_lor] at hk ⊢
  cases hx : Nat.testBit x i <;> cases hkk : Nat.testBit k i <;>
    cases hm : Nat.testBit m i <;> simp_all

theorem contains_eq_false_iff (x : Nat) {f k : Nat} (hf : f = 2 ^ k) :
    Flags.contains x f = false ↔ x &&& f = 0 := by
  subst hf
  simp only [Flags.contains, beq_eq_false_iff_ne, ne_eq]
  rw [Nat.and_two_pow]
  cases h : Nat.testBit x k <;>
    simp [(pow_pos (by norm_num : (0:ℕ) < 2) k).ne]

theorem intersects_eq_false (x m : Nat) :
    Flags.intersects x m = false ↔ x &&& m = 0 := by
  simp [Flags.intersects]

theorem paramsChars_append (ps qs : List Nat) :
    paramsChars (ps ++ qs) = paramsChars ps ++ paramsChars qs := by
  simp [paramsChars]

theorem boldDimStr_eq_params (selfF lastF : Flags) :
    boldDimStr selfF lastF = paramsChars (boldDimCodes selfF lastF) := by
  unfold boldDimStr boldDimCodes
  split_ifs <;> decide

theorem appendIfFlagsDiffer_eq_params (selfF diff flag : Flags) (num : Nat)
    (h : Nat.repr (20 + num) = "2" ++ Nat.repr num) :
    appendIfFlagsDiffer selfF diff flag num = paramsChars (styleCode selfF diff flag num) := by
  unfold appendIfFlagsDiffer styleCode
  split_ifs <;>
    simp [paramsChars, codeChars, h, String.toList, String.data_append]

theorem flagsStr_eq_params (selfF lastF : Flags) :
    flagsStr selfF lastF = paramsChars (flagsCodes selfF lastF) := by
  unfold flagsStr flagsCodes
  rw [boldDimStr_eq_params,
    appendIfFlagsDiffer_eq_params _ _ _ 3 (by decide),
    appendIfFlagsDiffer_eq_params _ _ _ 4 (by decide),
    appendIfFlagsDiffer_eq_params _ _ _ 7 (by decide),
    appendIfFlagsDiffer_eq_params _ _ _ 8 (by decide),
    appendIfFlagsDiffer_eq_params _ _ _ 9 (by decide)]
  simp [paramsChars_append]

theorem paramsChars_eq_sgrBody (ps : List Nat) (h : ps ≠ []) :
    paramsChars ps = sgrBody ps ++ [';'] := by
  induction ps with
  | nil => exact absurd rfl h
  | cons n rest ih =>
    cases rest with
    | nil => simp [paramsChars, codeChars, sgrBody]
    | cons m rest' =>
      have hm : paramsChars (m :: rest') = sgrBody (m :: rest') ++ [';'] := ih (by simp)
      have hcons : paramsChars (n :: m :: rest') = codeChars n ++ paramsChars (m :: rest') := by
        simp [paramsChars]
      rw [hcons, hm]
      simp [sgrBody, codeChars]

theorem csiFinalize_append (buf ext : List Char) :
    csiFinalize (buf ++ csiIntroducer).length (buf ++ csiIntroducer ++ ext) =
      if ext = [] then buf else buf ++ csiIntroducer ++ ext.dropLast ++ ['m'] := by
  unfold csiFinalize
  by_cases h : ext = []
  · subst h
    simp [csiIntroducer]
  · have hlen : (buf ++ csiIntroducer ++ ext).length ≠ (buf ++ csiIntroducer).length := by
      intro hq
      simp only [List.length_append, csiIntroducer, List.length_cons, List.length_nil] at hq
      exact h (List.eq_nil_of_length_eq_zero (by omega))
    rw [if_neg hlen, if_neg h, List.dropLast_append_of_ne_nil _ h]

/-- The closed form of `as_escape`: everything the color capability and the
flags section contribute forms the body; an empty body leaves the buffer
untouched, a non-empty one yields the introducer, body with the last
semicolon removed, and the terminator. -/
theorem as_escape_eq (colorEsc : ColorEscape) (self last : Cell) (buf : List Char) :
    Cell.as_escape colorEsc self last buf =
      (if (colorEsc self.fg last.fg true ++ colorEsc self.bg last.bg false
            ++ (if self.flags = last.flags then [] else flagsStr self.flags last.flags)) = []
        then buf
        else buf ++ csiIntroducer
          ++ (colorEsc self.fg last.fg true ++ colorEsc self.bg last.bg false
              ++ (if self.flags = last.flags then [] else flagsStr self.flags last.flags)).dropLast
          ++ ['m']) := by
  by_cases hf : self.flags = last.flags
  · simp only [Cell.as_escape, if_pos hf, List.append_nil]
    rw [List.append_assoc (buf ++ csiIntroducer)]
    exact csiFinalize_append buf _
  · simp only [Cell.as_escape, if_neg hf]
    rw [List.append_assoc (buf ++ csiIntroducer) (colorEsc self.fg last.fg true),
      List.append_assoc (buf ++ csiIntroducer)
        (colorEsc self.fg last.fg true ++ colorEsc self.bg last.bg false)]
    exact csiFinalize_append buf _

/-! ## Claim theorems -/

/-- Claim C5: when the color capability appends nothing for both color
transitions and the flags are unchanged, `as_escape` emits zero bytes — the
speculative CSI introducer is removed again.  In particular, encoding a cell
against itself as `last` appends nothing whenever the capability appends
nothing for equal colors. -/
theorem as_escape_no_change_no_output (colorEsc : ColorEscape) (self last : Cell)
    (buf : List Char)
    (hfg : colorEsc self.fg last.fg true = [])
    (hbg : colorEsc self.bg last.bg false = [])
    (hflags : self.flags = last.flags) :
    Cell.as_escape colorEsc self last buf = buf := by
  rw [as_escape_eq, hfg, hbg, if_pos hflags]
  simp

theorem as_escape_no_change_no_output_witness :
    Cell.as_escape (fun _ _ _ => []) Cell.default Cell.default ['x'] = ['x'] :=
  as_escape_no_change_no_output (fun _ _ _ => []) Cell.default Cell.default ['x'] rfl rfl rfl

/-- Claim C10: `as_escape` only appends.  For every color capability, every
pair of cells and every initial buffer, the original buffer contents remain an
unchanged prefix of the result: the final truncation removes at most the
introducer this call wrote, and the terminator overwrite touches only a byte
this call wrote.  (The cells themselves are unmodified by construction: the
embedding is pure and `as_escape` returns only the new buffer.) -/
theorem as_escape_append_only (colorEsc : ColorEscape) (self last : Cell)
    (buf : List Char) :
    (Cell.as_escape colorEsc self last buf).take buf.length = buf
      ∧ ∃ appended, Cell.as_escape colorEsc self last buf = buf ++ appended := by
  rw [as_escape_eq]
  by_cases h : (colorEsc self.fg last.fg true ++ colorEsc self.bg last.bg false
      ++ (if self.flags = last.flags then [] else flagsStr self.flags last.flags)) = []
  · rw [if_pos h]
    exact ⟨List.take_length buf, ⟨[], by simp⟩⟩
  · rw [if_neg h, List.append_assoc buf, List.append_assoc buf]
    exact ⟨List.take_left buf _, ⟨_, rfl⟩⟩

/-- Claim C7: `reset` yields the default cell with the template's background:
glyph is space, foreground is the named foreground, flags are empty, and the
extended storage is gone (so `zerowidth` yields nothing), regardless of the
cell's previous state. -/
theorem reset_spec (c t : Cell) :
    Cell.reset c t = { Cell.default with bg := t.bg }
      ∧ (Cell.reset c t).c = ' '
      ∧ (Cell.reset c t).fg = Color.Named NamedColor.Foreground
      ∧ (Cell.reset c t).bg = t.bg
      ∧ (Cell.reset c t).flags = Flags.emptySet
      ∧ (Cell.reset c t).zerowidth = none :=
  ⟨rfl, rfl, rfl, rfl, rfl, rfl⟩

/-- Claim C9: the `ResetDiscriminant` capability.  The blanket implementation
for copyable values is the identity, and `Cell`'s implementation returns
exactly the background color, unaffected by glyph, foreground, flags or
extended storage. -/
theorem discriminant_spec :
    (∀ (T : Type) (v : T), discriminantCopy v = v)
      ∧ (∀ cell : Cell, Cell.discriminant cell = cell.bg)
      ∧ (∀ (cell : Cell) (glyph : Char) (fg : Color) (flags : Flags)
          (extra : Option CellExtra),
          Cell.discriminant { cell with c := glyph, fg := fg, flags := flags, extra := extra }
            = Cell.discriminant cell) :=
  ⟨fun _ _ => rfl, fun _ => rfl, fun _ _ _ _ _ => rfl⟩

theorem push_zerowidth_view (cell : Cell) (ch : Char) :
    Cell.push_zerowidth cell ch = { cell with extra := some ⟨cell.zerowidthView ++ [ch]⟩ } := by
  cases cell with
  | mk c fg bg flags extra => cases extra <;> rfl

theorem pushAll_view (cell : Cell) (cs : List Char) :
    (pushZerowidthAll cell cs).zerowidthView = cell.zerowidthView ++ cs := by
  induction cs generalizing cell with
  | nil => simp [pushZerowidthAll]
  | cons ch cs ih =>
    show (pushZerowidthAll (cell.push_zerowidth ch) cs).zerowidthView = _
    rw [ih, push_zerowidth_view]
    simp [Cell.zerowidthView, Cell.zerowidth]

theorem drop_extra_eq (cell : Cell) :
    Cell.drop_extra cell = { cell with extra := none } := by
  cases cell with
  | mk c fg bg flags extra => cases extra <;> rfl

theorem pushAll_fields (cell : Cell) (cs : List Char) :
    { pushZerowidthAll cell cs with extra := none } = { cell with extra := none } := by
  induction cs generalizing cell with
  | nil => rfl
  | cons ch cs ih =>
    show { pushZerowidthAll (cell.push_zerowidth ch) cs with extra := none } = _
    rw [ih, push_zerowidth_view]

/-- Claim C8, counterexample: on a cell that already carries a zero-width
character, pushing a sequence does not make `zerowidth` return exactly that
sequence — the previously attached character is still there. -/
theorem zerowidth_push_counterexample :
    Cell.zerowidth (pushZerowidthAll (Cell.push_zerowidth Cell.default 'a') ['b'])
        = some ['a', 'b']
      ∧ Cell.zerowidth (pushZerowidthAll (Cell.push_zerowidth Cell.default 'a') ['b'])
        ≠ some ['b'] := by
  decide

/-- Claim C8 as amended: pushing a sequence of characters appends them, in
push order, after the characters the cell already held (so on a cell without
extended storage the result is exactly the pushed sequence); `drop_extra`
afterwards makes the cell structurally equal to one that never had extended
storage; `drop_extra` is idempotent; and `zerowidth` on a cell with no
extended storage reports no characters. -/
theorem zerowidth_push_spec (cell : Cell) (cs : List Char) :
    Cell.zerowidthView (pushZerowidthAll cell cs) = Cell.zerowidthView cell ++ cs
      ∧ Cell.drop_extra (pushZerowidthAll cell cs) = { cell with extra := none }
      ∧ Cell.drop_extra (Cell.drop_extra cell) = Cell.drop_extra cell
      ∧ Cell.zerowidth { cell with extra := none } = none := by
  refine ⟨pushAll_view cell cs, ?_, ?_, rfl⟩
  · rw [drop_extra_eq, pushAll_fields]
  · rw [drop_extra_eq, drop_extra_eq]

/-- Claim C6: under the hypothesis that the color capability appends only
runs of trailing-semicolon-terminated numeric parameters (possibly none),
`as_escape` appends either nothing or exactly one well-formed SGR sequence:
the CSI introducer, one or more semicolon-separated numeric parameters with
the final trailing semicolon overwritten by the terminator `'m'`, leaving no
dangling semicolon and no bare introducer. -/
theorem as_escape_wellformed (colorEsc : ColorEscape)
    (hcolor : ∀ target lastColor isFg, ∃ ps : List Nat,
      colorEsc target lastColor isFg = paramsChars ps)
    (self last : Cell) (buf : List Char) :
    Cell.as_escape colorEsc self last buf = buf ∨
      ∃ ps : List Nat, ps ≠ [] ∧
        Cell.as_escape colorEsc self last buf = buf ++ sgrSequence ps := by
  obtain ⟨ps1, h1⟩ := hcolor self.fg last.fg true
  obtain ⟨ps2, h2⟩ := hcolor self.bg last.bg false
  have hbody : colorEsc self.fg last.fg true ++ colorEsc self.bg last.bg false
      ++ (if self.flags = last.flags then [] else flagsStr self.flags last.flags)
      = paramsChars (ps1 ++ ps2
        ++ (if self.flags = last.flags then [] else flagsCodes self.flags last.flags)) := by
    rw [h1, h2, paramsChars_append, paramsChars_append]
    congr 1
    split_ifs
    · rfl
    · exact flagsStr_eq_params _ _
  rw [as_escape_eq, hbody]
  by_cases hP : (ps1 ++ ps2
      ++ (if self.flags = last.flags then [] else flagsCodes self.flags last.flags)) = []
  · left
    rw [hP]
    simp [paramsChars]
  · right
    refine ⟨_, hP, ?_⟩
    rw [paramsChars_eq_sgrBody _ hP]
    have hne : sgrBody (ps1 ++ ps2
        ++ (if self.flags = last.flags then [] else flagsCodes self.flags last.flags))
          ++ [';'] ≠ [] := by simp
    rw [if_neg hne, List.dropLast_concat]
    simp [sgrSequence, List.append_assoc]

theorem as_escape_wellformed_witness :
    Cell.as_escape (fun _ _ _ => []) { Cell.default with flags := Flags.BOLD }
        Cell.default [] = []
      ∨ ∃ ps : List Nat, ps ≠ [] ∧
          Cell.as_escape (fun _ _ _ => []) { Cell.default with flags := Flags.BOLD }
            Cell.default [] = [] ++ sgrSequence ps :=
  as_escape_wellformed (fun _ _ _ => []) (fun _ _ _ => ⟨[], rfl⟩)
    { Cell.default with flags := Flags.BOLD } Cell.default []

theorem boldDimCodes_filter (selfF lastF : Flags) :
    (boldDimCodes selfF lastF).filter (fun n => n == 1 || n == 2 || n == 22)
      = boldDimCodes selfF lastF := by
  unfold boldDimCodes
  split_ifs <;> rfl

theorem styleCode_filter_out (selfF diff flag : Flags) (num : Nat)
    (h3 : 2 < num) (h10 : num < 10) :
    (styleCode selfF diff flag num).filter (fun n => n == 1 || n == 2 || n == 22)
      = [] := by
  unfold styleCode
  split_ifs <;> simp <;> omega

theorem intersects_boldDim_iff (selfF : Flags) :
    Flags.intersects selfF (Flags.BOLD ||| Flags.DIM) = false ↔
      (Flags.contains selfF Flags.BOLD = false
        ∧ Flags.contains selfF Flags.DIM = false) := by
  rw [intersects_eq_false, land_lor_distrib_left, lor_eq_zero_iff,
    contains_eq_false_iff selfF (show Flags.BOLD = 2 ^ 1 from rfl),
    contains_eq_false_iff selfF (show Flags.DIM = 2 ^ 7 from rfl)]

/-- Claim C3: when the flags differ on BOLD or DIM, the flags section of
`as_escape` contributes exactly one bold/dim parameter: the combined reset
code 22 when the target has neither BOLD nor DIM, else the bold-set code 1
when the target has BOLD (priority over DIM), else the dim-set code 2. -/
theorem boldDim_code_spec (selfF lastF : Flags)
    (h : Flags.intersects (selfF ^^^ lastF) (Flags.BOLD ||| Flags.DIM) = true) :
    (flagsCodes selfF lastF).filter (fun n => n == 1 || n == 2 || n == 22) =
      [if Flags.contains selfF Flags.BOLD = false ∧ Flags.contains selfF Flags.DIM = false
        then 22
        else if Flags.contains selfF Flags.BOLD = true then 1 else 2] := by
  have hL : (flagsCodes selfF lastF).filter (fun n => n == 1 || n == 2 || n == 22)
      = boldDimCodes selfF lastF := by
    unfold flagsCodes
    simp only [List.filter_append, boldDimCodes_filter,
      styleCode_filter_out selfF _ _ 3 (by omega) (by omega),
      styleCode_filter_out selfF _ _ 4 (by omega) (by omega),
      styleCode_filter_out selfF _ _ 7 (by omega) (by omega),
      styleCode_filter_out selfF _ _ 8 (by omega) (by omega),
      styleCode_filter_out selfF _ _ 9 (by omega) (by omega),
      List.append_nil]
  rw [hL]
  unfold boldDimCodes
  rw [if_pos h]
  by_cases hsd : Flags.intersects selfF (Flags.BOLD ||| Flags.DIM) = true
  · have hnotboth : ¬(Flags.contains selfF Flags.BOLD = false
        ∧ Flags.contains selfF Flags.DIM = false) := by
      intro hc
      rw [(intersects_boldDim_iff selfF).mpr hc] at hsd
      exact Bool.false_ne_true hsd
    rw [if_neg (by simp [hsd]), if_neg hnotboth]
    by_cases hb : Flags.contains selfF Flags.BOLD = true
    · rw [if_pos hb, if_pos hb]
    · rw [if_neg hb, if_neg hb]
  · have hsd' : Flags.intersects selfF (Flags.BOLD ||| Flags.DIM) = false :=
      Bool.eq_false_iff.mpr hsd
    rw [if_pos (by simp [hsd']), if_pos ((intersects_boldDim_iff selfF).mp hsd')]

theorem boldDim_code_spec_witness :
    (flagsCodes Flags.BOLD Flags.emptySet).filter (fun n => n == 1 || n == 2 || n == 22) =
      [if Flags.contains Flags.BOLD Flags.BOLD = false
          ∧ Flags.contains Flags.BOLD Flags.DIM = false
        then 22
        else if Flags.contains Flags.BOLD Flags.BOLD = true then 1 else 2] :=
  boldDim_code_spec Flags.BOLD Flags.emptySet (by decide)

theorem boldDimCodes_filter_out (selfF lastF : Flags) :
    (boldDimCodes selfF lastF).filter (fun n => !(n == 1 || n == 2 || n == 22))
      = [] := by
  unfold boldDimCodes
  split_ifs <;> rfl

theorem styleCode_filter_keep (selfF diff flag : Flags) (num : Nat)
    (h3 : 2 < num) (h10 : num < 10) :
    (styleCode selfF diff flag num).filter (fun n => !(n == 1 || n == 2 || n == 22))
      = styleCode selfF diff flag num := by
  unfold styleCode
  split_ifs <;> simp <;> omega

theorem styleSpec_entry (selfF diff : Flags) (p : Flags × Nat) (l : List (Flags × Nat)) :
    (((p :: l).filter (fun q => Flags.contains diff q.1)).map
        (fun q => if Flags.contains selfF q.1 then q.2 else 20 + q.2)) =
      styleCode selfF diff p.1 p.2
        ++ ((l.filter (fun q => Flags.contains diff q.1)).map
          (fun q => if Flags.contains selfF q.1 then q.2 else 20 + q.2)) := by
  rcases p with ⟨flag, num⟩
  unfold styleCode
  by_cases hc : Flags.contains diff flag = true <;>
    simp [List.filter_cons, hc] <;> split_ifs <;> simp

/-- Claim C4: when the flags differ, after the bold/dim block the flags
section contributes one parameter for each of ITALIC, UNDERLINE, INVERSE,
HIDDEN, STRIKEOUT whose bit differs, in exactly that fixed order, using the
set code (3, 4, 7, 8, 9) when the target has the flag and the unset code
(23, 24, 27, 28, 29) otherwise; flags whose bit does not differ contribute
nothing.  Stated as: filtering the bold/dim codes out of the section's
parameters leaves exactly the spec-side list `styleSpecCodes`. -/
theorem style_codes_spec (selfF lastF : Flags) (h : selfF ≠ lastF) :
    (flagsCodes selfF lastF).filter (fun n => !(n == 1 || n == 2 || n == 22)) =
      styleSpecCodes selfF lastF := by
  unfold flagsCodes styleSpecCodes
  simp only [List.filter_append, boldDimCodes_filter_out, List.nil_append,
    styleCode_filter_keep selfF _ _ 3 (by omega) (by omega),
    styleCode_filter_keep selfF _ _ 4 (by omega) (by omega),
    styleCode_filter_keep selfF _ _ 7 (by omega) (by omega),
    styleCode_filter_keep selfF _ _ 8 (by omega) (by omega),
    styleCode_filter_keep selfF _ _ 9 (by omega) (by omega),
    styleSpec_entry, List.filter_nil, List.map_nil, List.append_nil]
  simp [List.append_assoc]

theorem style_codes_spec_witness :
    (flagsCodes (Flags.ITALIC ||| Flags.UNDERLINE) Flags.emptySet).filter
        (fun n => !(n == 1 || n == 2 || n == 22)) =
      styleSpecCodes (Flags.ITALIC ||| Flags.UNDERLINE) Flags.emptySet :=
  style_codes_spec (Flags.ITALIC ||| Flags.UNDERLINE) Flags.emptySet (by decide)

theorem firstNonEmpty_takeWhile (l : List Cell) :
    (match firstNonEmpty l with
      | some index => l.length - index
      | none => 0) = l.length - (l.takeWhile Cell.is_empty).length := by
  induction l with
  | nil => rfl
  | cons cell rest ih =>
    by_cases hc : cell.is_empty = true
    · simp only [firstNonEmpty, hc, if_true, List.takeWhile_cons, List.length_cons]
      have hle : (rest.takeWhile Cell.is_empty).length ≤ rest.length :=
        (List.takeWhile_sublist _).length_le
      cases hfr : firstNonEmpty rest with
      | none =>
        rw [hfr] at ih
        replace ih : 0 = rest.length - (rest.takeWhile Cell.is_empty).length := ih
        simp only [Option.map_none']
        rw [Nat.add_sub_add_right]
        exact ih
      | some index =>
        rw [hfr] at ih
        replace ih : rest.length - index
            = rest.length - (rest.takeWhile Cell.is_empty).length := ih
        simp only [Option.map_some']
        rw [Nat.add_sub_add_right, Nat.add_sub_add_right]
        exact ih
    · have hc' : cell.is_empty = false := Bool.eq_false_iff.mpr hc
      simp [firstNonEmpty, hc', List.takeWhile_cons]

/-- Claim C1: for a non-empty row, `line_length` returns the full length when
the last cell carries WRAPLINE; otherwise it returns `N - k` where `k` is the
number of consecutive trailing empty cells (the length of the longest
`is_empty` run at the end, scanned right to left); in particular a fully
empty row without WRAPLINE has occupied length 0. -/
theorem line_length_spec (row : List Cell) (hrow : row ≠ []) :
    (Flags.contains (row.getLastD Cell.default).flags Flags.WRAPLINE = true →
      line_length row = row.length)
    ∧ (Flags.contains (row.getLastD Cell.default).flags Flags.WRAPLINE = false →
      line_length row = row.length - (row.reverse.takeWhile Cell.is_empty).length)
    ∧ ((∀ cell ∈ row, cell.is_empty = true) →
      Flags.contains (row.getLastD Cell.default).flags Flags.WRAPLINE = false →
      line_length row = 0) := by
  have hbranch : Flags.contains (row.getLastD Cell.default).flags Flags.WRAPLINE = false →
      line_length row = row.length - (row.reverse.takeWhile Cell.is_empty).length := by
    intro hw
    have hkey := firstNonEmpty_takeWhile row.reverse
    rw [List.length_reverse] at hkey
    simp only [line_length, hw, Bool.false_eq_true, if_false]
    exact hkey
  refine ⟨fun hw => by rw [line_length, if_pos hw], hbranch, fun hall hw => ?_⟩
  rw [hbranch hw]
  have hfull : row.reverse.takeWhile Cell.is_empty = row.reverse := by
    rw [List.takeWhile_eq_self_iff]
    intro cell hcell
    exact hall cell (List.mem_reverse.mp hcell)
  rw [hfull, List.length_reverse, Nat.sub_self]

theorem line_length_spec_witness :
    line_length [Cell.default] =
      [Cell.default].length - ([Cell.default].reverse.takeWhile Cell.is_empty).length :=
  (line_length_spec [Cell.default] (by decide)).2.1 (by decide)

theorem emptyMask_decompose (x : Nat) :
    Flags.intersects x
        (Flags.INVERSE ||| Flags.UNDERLINE ||| Flags.DOUBLE_UNDERLINE
          ||| Flags.STRIKEOUT ||| Flags.WRAPLINE ||| Flags.WIDE_CHAR_SPACER
          ||| Flags.LEADING_WIDE_CHAR_SPACER) = false ↔
      (Flags.contains x Flags.INVERSE = false
        ∧ Flags.contains x Flags.UNDERLINE = false
        ∧ Flags.contains x Flags.DOUBLE_UNDERLINE = false
        ∧ Flags.contains x Flags.STRIKEOUT = false
        ∧ Flags.contains x Flags.WRAPLINE = false
        ∧ Flags.contains x Flags.WIDE_CHAR_SPACER = false
        ∧ Flags.contains x Flags.LEADING_WIDE_CHAR_SPACER = false) := by
  rw [intersects_eq_false,
    contains_eq_false_iff x (show Flags.INVERSE = 2 ^ 0 from rfl),
    contains_eq_false_iff x (show Flags.UNDERLINE = 2 ^ 3 from rfl),
    contains_eq_false_iff x (show Flags.DOUBLE_UNDERLINE = 2 ^ 11 from rfl),
    contains_eq_false_iff x (show Flags.STRIKEOUT = 2 ^ 9 from rfl),
    contains_eq_false_iff x (show Flags.WRAPLINE = 2 ^ 4 from rfl),
    contains_eq_false_iff x (show Flags.WIDE_CHAR_SPACER = 2 ^ 6 from rfl),
    contains_eq_false_iff x (show Flags.LEADING_WIDE_CHAR_SPACER = 2 ^ 10 from rfl)]
  simp only [land_lor_distrib_left, lor_eq_zero_iff]
  tauto

theorem extra_empty_decompose (cell : Cell) :
    ((cell.extra.map (fun extra => extra.zerowidth.isEmpty) != some false) = true) ↔
      ∀ extra, cell.extra = some extra → extra.zerowidth = [] := by
  cases hx : cell.extra with
  | none => simp
  | some extra =>
    simp [List.isEmpty_iff]

theorem is_empty_flag_insensitive (cell : Cell) {k : Nat}
    (hk : k &&& (Flags.INVERSE ||| Flags.UNDERLINE ||| Flags.DOUBLE_UNDERLINE
      ||| Flags.STRIKEOUT ||| Flags.WRAPLINE ||| Flags.WIDE_CHAR_SPACER
      ||| Flags.LEADING_WIDE_CHAR_SPACER) = 0) :
    Cell.is_empty { cell with flags := cell.flags ||| k } = cell.is_empty := by
  unfold Cell.is_empty
  simp only [Flags.intersects]
  rw [lor_land_preserving hk]

/-- Claim C2: a cell is empty exactly when its glyph is space or tab, its
background and foreground are the named default background and foreground,
it carries none of INVERSE, UNDERLINE, DOUBLE_UNDERLINE, STRIKEOUT, WRAPLINE,
WIDE_CHAR_SPACER, LEADING_WIDE_CHAR_SPACER, and any extended storage present
holds no zero-width characters; setting BOLD, ITALIC, DIM, HIDDEN or
WIDE_CHAR never changes emptiness. -/
theorem is_empty_characterization (cell : Cell) :
    (cell.is_empty = true ↔
      ((cell.c = ' ' ∨ cell.c = '\t')
        ∧ cell.bg = Color.Named NamedColor.Background
        ∧ cell.fg = Color.Named NamedColor.Foreground
        ∧ Flags.contains cell.flags Flags.INVERSE = false
        ∧ Flags.contains cell.flags Flags.UNDERLINE = false
        ∧ Flags.contains cell.flags Flags.DOUBLE_UNDERLINE = false
        ∧ Flags.contains cell.flags Flags.STRIKEOUT = false
        ∧ Flags.contains cell.flags Flags.WRAPLINE = false
        ∧ Flags.contains cell.flags Flags.WIDE_CHAR_SPACER = false
        ∧ Flags.contains cell.flags Flags.LEADING_WIDE_CHAR_SPACER = false
        ∧ ∀ extra, cell.extra = some extra → extra.zerowidth = []))
      ∧ Cell.is_empty { cell with flags := cell.flags ||| Flags.BOLD } = cell.is_empty
      ∧ Cell.is_empty { cell with flags := cell.flags ||| Flags.ITALIC } = cell.is_empty
      ∧ Cell.is_empty { cell with flags := cell.flags ||| Flags.DIM } = cell.is_empty
      ∧ Cell.is_empty { cell with flags := cell.flags ||| Flags.HIDDEN } = cell.is_empty
      ∧ Cell.is_empty { cell with flags := cell.flags ||| Flags.WIDE_CHAR } = cell.is_empty := by
  refine ⟨?_, is_empty_flag_insensitive cell (by decide),
    is_empty_flag_insensitive cell (by decide),
    is_empty_flag_insensitive cell (by decide),
    is_empty_flag_insensitive cell (by decide),
    is_empty_flag_insensitive cell (by decide)⟩
  unfold Cell.is_empty
  simp only [Bool.and_eq_true, Bool.or_eq_true, beq_iff_eq, Bool.not_eq_true']
  rw [emptyMask_decompose, extra_empty_decompose]
  tauto

end Alacritty
